import Mathlib

/-!
Verification of the Shard Acquisition & Inference-Continuation subsystem.

Shallow embedding of:
  * `src/exo/inference/tinygrad/inference.py`
    (`TinygradDynamicShardInferenceEngine.infer_prompt`, `.infer_tensor`,
    `.ensure_shard`, and the continuation-state codec built on
    `json.loads` / `json.dumps`),
  * `src/exo/inference/mlx/sharded_utils.py`
    (`get_repo_size`, `monitor_progress`, `download_async_with_progress`,
    `get_model_path`'s allow-list),
  * `src/main.py` (`throttled_broadcast`).

Machine reals (Python floats) are modelled with `Rat`; Python exceptions with
an explicit error type on `Except`; the tensor backend (tinygrad model forward
pass) and tokenizer are abstract parameters, since the claims only depend on
the shape of the forward-pass result and on the token count.
-/

/-- Python exceptions that the embedded code paths can raise. -/
inductive PyErr where
  | jsonDecodeError
  | attributeError
  | typeError
  | zeroDivisionError
deriving DecidableEq, Repr

/-- JSON values, restricted to the subset that `json.loads` is exercised on by
the continuation codec and by the claims: objects with string keys, integers,
strings and the three literals.  (Floats, escapes, arrays and nested objects
never occur in any continuation blob nor in any input considered here.) -/
inductive JVal where
  | jnull
  | jbool (b : Bool)
  | jint (n : Int)
  | jstr (s : String)
  | jobj (fs : List (String × JVal))
deriving Repr

/-- JSON insignificant whitespace. -/
def isJsonWs (c : Char) : Bool :=
  c = ' ' || c = '\n' || c = '\t' || c = '\r'

/-- Skip insignificant whitespace. -/
def skipWs (cs : List Char) : List Char :=
  cs.dropWhile isJsonWs

/-- Parse a nonempty run of decimal digits into a natural number. -/
def parseNatTok (cs : List Char) : Option (Nat × List Char) :=
  if cs.takeWhile Char.isDigit = [] then none
  else some ((cs.takeWhile Char.isDigit).foldl (fun a c => a * 10 + (c.toNat - 48)) 0,
    cs.dropWhile Char.isDigit)

/-- Parse a JSON integer (optional leading minus sign, then digits). -/
def parseIntTok : List Char → Option (Int × List Char)
  | [] => none
  | c :: cs =>
    if c = '-' then (parseNatTok cs).map (fun p => (-(p.1 : Int), p.2))
    else (parseNatTok (c :: cs)).map (fun p => ((p.1 : Int), p.2))

/-- Parse a JSON string token (the codec's keys contain no escapes). -/
def parseStrTok : List Char → Option (String × List Char)
  | [] => none
  | c :: cs =>
    if c = '"' then
      match cs.dropWhile (fun x => x ≠ '"') with
      | [] => none
      | q :: rest =>
        if q = '"' then some (String.mk (cs.takeWhile (fun x => x ≠ '"')), rest)
        else none
    else none

/-- Parse one of the three JSON literals. -/
def parseLit : List Char → Option (JVal × List Char)
  | 'n' :: 'u' :: 'l' :: 'l' :: rest => some (.jnull, rest)
  | 't' :: 'r' :: 'u' :: 'e' :: rest => some (.jbool true, rest)
  | 'f' :: 'a' :: 'l' :: 's' :: 'e' :: rest => some (.jbool false, rest)
  | _ => none

/-- Parse a scalar JSON value: string, literal, or integer. -/
def parseScalar : List Char → Option (JVal × List Char)
  | [] => none
  | c :: cs =>
    if c = '"' then
      match parseStrTok (c :: cs) with
      | some p => some (.jstr p.1, p.2)
      | none => none
    else if c = 'n' ∨ c = 't' ∨ c = 'f' then parseLit (c :: cs)
    else
      match parseIntTok (c :: cs) with
      | some p => some (.jint p.1, p.2)
      | none => none

/-- Parse the members of a JSON object, positioned just after the opening
brace (and known non-empty).  The fuel bounds the number of members; the
top-level entry point passes one more than the input length, which always
suffices since each member consumes at least one character. -/
def parseMembers : Nat → List Char → Option (List (String × JVal) × List Char)
  | 0, _ => none
  | Nat.succ fuel, cs =>
    match parseStrTok (skipWs cs) with
    | none => none
    | some (k, cs1) =>
      match skipWs cs1 with
      | [] => none
      | c :: cs2 =>
        if c = ':' then
          match parseScalar (skipWs cs2) with
          | none => none
          | some (v, cs3) =>
            match skipWs cs3 with
            | [] => none
            | d :: cs4 =>
              if d = ',' then
                match parseMembers fuel cs4 with
                | some (fs, rest) => some ((k, v) :: fs, rest)
                | none => none
              else if d = '}' then some ([(k, v)], cs4)
              else none
        else none

/-- Parse a JSON value: a (flat) object, or a scalar. -/
def parseVal (fuel : Nat) (cs : List Char) : Option (JVal × List Char) :=
  match skipWs cs with
  | [] => none
  | c :: cs' =>
    if c = '{' then
      match skipWs cs' with
      | [] => none
      | d :: cs'' =>
        if d = '}' then some (.jobj [], cs'')
        else
          match parseMembers fuel (d :: cs'') with
          | some (fs, rest) => some (.jobj fs, rest)
          | none => none
    else parseScalar (c :: cs')

/-- Model of Python `json.loads` on the subset of JSON described at `JVal`:
parse one value and require that only whitespace remains; any failure raises
`json.JSONDecodeError`. -/
def jsonLoads (s : String) : Except PyErr JVal :=
  match parseVal (s.length + 1) s.data with
  | some (v, rest) => if skipWs rest = [] then .ok v else .error .jsonDecodeError
  | none => .error .jsonDecodeError

/-- Model of Python `inference_state or "\x7b\x7d"`: `None` and the empty
string are falsy, any other string is passed through. -/
def orBrace : Option String → String
  | none => "{}"
  | some s => if s = "" then "{}" else s

/-- Model of Python `dict.get(key, default)` on a parsed object's members.
(Duplicate keys never occur in a continuation blob.) -/
def dictGet (fs : List (String × JVal)) (k : String) (dflt : JVal) : JVal :=
  match fs.find? (fun p => p.1 = k) with
  | some p => p.2
  | none => dflt

/-- Embedding of the decode lines of `infer_prompt` / `infer_tensor`:
`json.loads(inference_state or "\x7b\x7d").get(key, 0)`.
Calling `.get` on a non-dict raises `AttributeError`.  A non-integer field
value is rejected here with `TypeError`; in Python the same call would instead
fail slightly later, when the value is used as an integer position/counter
(`start_pos` is consumed by the model forward call and `+=`,
`n_captured_toks` by `+=`), so on every path a non-integer field also raises.
All states actually produced by the codec hold integers. -/
def decodeIntField (st : Option String) (key : String) : Except PyErr Int := do
  let j ← jsonLoads (orBrace st)
  match j with
  | .jobj fs =>
    match dictGet fs key (.jint 0) with
    | .jint n => .ok n
    | _ => .error .typeError
  | _ => .error .attributeError

/-- The decoded continuation state `(start_pos, n_captured_toks)`, exactly the
pair of field reads performed at the top of `infer_prompt` / `infer_tensor`. -/
def decodeState (st : Option String) : Except PyErr (Int × Int) := do
  let sp ← decodeIntField st "start_pos"
  let nct ← decodeIntField st "n_captured_toks"
  .ok (sp, nct)

/-- The decimal digit characters, used to render integers. -/
def digitC (d : Nat) : Char :=
  if d = 0 then '0' else if d = 1 then '1' else if d = 2 then '2'
  else if d = 3 then '3' else if d = 4 then '4' else if d = 5 then '5'
  else if d = 6 then '6' else if d = 7 then '7' else if d = 8 then '8' else '9'

/-- Decimal rendering of a natural number (most significant digit first), as
produced by `json.dumps` for a non-negative `int`. -/
def natReprL (n : Nat) : List Char :=
  if n = 0 then ['0'] else ((Nat.digits 10 n).map digitC).reverse

/-- Decimal rendering of an integer, as produced by `json.dumps`. -/
def intReprL (n : Int) : List Char :=
  if n < 0 then '-' :: natReprL n.natAbs else natReprL n.natAbs

/-- The character sequence produced by
`json.dumps` on the dict with keys `start_pos` and `n_captured_toks` (in that
insertion order, with the default `", "` and `": "` separators). -/
def encodeStateL (sp nct : Int) : List Char :=
  '{' :: '"' :: ("start_pos".data ++ ('"' :: ':' :: ' ' ::
    (intReprL sp ++ (',' :: ' ' :: '"' :: ("n_captured_toks".data ++ ('"' :: ':' :: ' ' ::
      (intReprL nct ++ ['}'])))))))

/-- Embedding of
`json.dumps(dict with start_pos and n_captured_toks)` as used by
`infer_prompt` / `infer_tensor` to serialize the continuation state. -/
def encodeState (sp nct : Int) : String :=
  String.mk (encodeStateL sp nct)

/-- Result of the resident model's forward pass
(`self.model(Tensor(...), start_pos, TEMPERATURE)`): either a single scalar
(`h.shape == (1,)`, the final pipeline stage's sampled token id `h.item()`)
or an intermediate hidden-state tensor, with abstract payload type `τ`. -/
inductive FwdOut (τ : Type) where
  | scalar (tok : Int)
  | hidden (t : τ)

/-- The resident model and tokenizer after `ensure_shard` has run: the
tokenizer's `encode` and `eos_token_id`, and the model forward pass for a
token-list input (`infer_prompt`) and for a tensor input (`infer_tensor`).
The tensor payload type `τ` is abstract. -/
structure Engine (τ : Type) where
  encode : String → List Int
  eosTokenId : Int
  forward : List Int → Int → FwdOut τ
  forwardT : τ → Int → FwdOut τ

/-- The first component of an inference result: `np.array([[h.item()]])` on
the scalar branch, `h.numpy()` on the hidden branch. -/
inductive Out (τ : Type) where
  | scalarArr (tok : Int)
  | tensor (t : τ)

/-- Embedding of `TinygradDynamicShardInferenceEngine.infer_prompt` (after the
`ensure_shard` call, which is modelled separately and does not touch the
continuation computation):
decode `start_pos` and `n_captured_toks`, tokenize the prompt, run the forward
pass, then either (scalar result) advance `start_pos` by the token count, set
`n_captured_toks = 1` and flag termination by comparison with
`eos_token_id`, or (hidden result) accumulate `n_captured_toks` by the token
count and serialize `n_captured_toks + 1` with an unadvanced `start_pos`. -/
def inferPrompt {τ : Type} (eng : Engine τ) (prompt : String)
    (inference_state : Option String) : Except PyErr (Out τ × String × Bool) := do
  let start_pos ← decodeIntField inference_state "start_pos"
  let n_captured_toks ← decodeIntField inference_state "n_captured_toks"
  let toks := eng.encode prompt
  match eng.forward toks start_pos with
  | .scalar t =>
    let start_pos := start_pos + (toks.length : Int)
    let n_captured_toks := (1 : Int)
    .ok (.scalarArr t, encodeState start_pos n_captured_toks, decide (t = eng.eosTokenId))
  | .hidden h =>
    let n_captured_toks := n_captured_toks + (toks.length : Int)
    .ok (.tensor h, encodeState start_pos (n_captured_toks + 1), false)

/-- Embedding of `TinygradDynamicShardInferenceEngine.infer_tensor`: same
decode, forward pass on the input tensor; on the scalar branch `start_pos` is
advanced by the previously captured-token count (`start_pos += n_captured_toks`)
and `n_captured_toks` is reset to `1`; on the hidden branch the decoded state
is re-serialized unchanged. -/
def inferTensor {τ : Type} (eng : Engine τ) (input : τ)
    (inference_state : Option String) : Except PyErr (Out τ × String × Bool) := do
  let start_pos ← decodeIntField inference_state "start_pos"
  let n_captured_toks ← decodeIntField inference_state "n_captured_toks"
  match eng.forwardT input start_pos with
  | .scalar t =>
    let start_pos := start_pos + n_captured_toks
    let n_captured_toks := (1 : Int)
    .ok (.scalarArr t, encodeState start_pos n_captured_toks, decide (t = eng.eosTokenId))
  | .hidden h =>
    .ok (.tensor h, encodeState start_pos n_captured_toks, false)

/-- The Shard value object.  Modelled from the spec: the `Shard` dataclass
lives in `exo/inference/shard.py`, which is not among the provided sources;
per spec section 3 it is
`(model_id, start_layer, end_layer, n_layers)` with field-wise equality
("Two shards are equal iff all four fields match"). -/
structure Shard where
  model_id : String
  start_layer : Int
  end_layer : Int
  n_layers : Int
deriving DecidableEq, Repr

/-- The engine's single-slot cache: `self.shard` (initialized to `None` in
`__init__`), `self.model` and `self.tokenizer` (unset until the first load),
with abstract model/tokenizer handle types. -/
structure EngineSlot (μ θ : Type) where
  shard : Option Shard
  model : Option μ
  tokenizer : Option θ
deriving DecidableEq

/-- Embedding of `TinygradDynamicShardInferenceEngine.ensure_shard`.
`download` stands for `self.shard_downloader.ensure_shard` (returning the
local model path), `build` for `build_transformer(model_path, shard, ...)`,
`loadTok` for `AutoTokenizer.from_pretrained(...)`.  Returns the new slot
state together with the number of downloader invocations performed:
if the cached shard equals the requested one the call returns at once;
otherwise it downloads, rebuilds model and tokenizer from the path, and
records the requested shard. -/
def ensure_shard {μ θ : Type} (download : Shard → String)
    (build : String → Shard → μ) (loadTok : String → θ)
    (st : EngineSlot μ θ) (shard : Shard) : EngineSlot μ θ × Nat :=
  if st.shard = some shard then (st, 0)
  else
    let model_path := download shard
    ({ shard := some shard, model := some (build model_path shard),
       tokenizer := some (loadTok model_path) }, 1)

/-- One file entry of the remote repository tree, as returned by
`list_repo_tree`: a path and an optional byte size (directories carry none). -/
structure RepoFile where
  path : String
  size : Option Int
deriving DecidableEq, Repr

/-- `fnmatch`-style matching as exercised by the allow-list patterns of
`get_model_path`: every pattern there is either a literal file name or a
single leading `*` followed by a suffix. -/
def fnmatchSimple (pat : String) (path : String) : Bool :=
  match pat.data with
  | '*' :: rest => rest.isSuffixOf path.data
  | _ => pat = path

/-- Whether a path survives `filter_repo_objects` with the given
`allow_patterns`; `none` disables filtering (the huggingface-hub behavior). -/
def matchesAllowList (allow : Option (List String)) (path : String) : Bool :=
  match allow with
  | none => true
  | some pats => pats.any (fun p => fnmatchSimple p path)

/-- Embedding of `filter_repo_objects(it, allow_patterns=..., key=lambda f: f.path)`. -/
def filter_repo_objects (allow : Option (List String)) (files : List RepoFile) : List RepoFile :=
  files.filter (fun f => matchesAllowList allow f.path)

/-- Embedding of `get_repo_size`: sum of `file.size` over the filtered files,
skipping entries whose size is `None`. -/
def get_repo_size (files : List RepoFile) (allow : Option (List String)) : Int :=
  ((filter_repo_objects allow files).filterMap (fun f => f.size)).sum

/-- The allow-list that `get_model_path` passes to
`download_async_with_progress` (and hence to the transfer). -/
def model_allow_patterns : List String :=
  ["*.json", "*.safetensors", "*.py", "tokenizer.model", "*.tiktoken", "*.txt"]

/-- The expected total used by `download_async_with_progress` for the
Transfer Monitor: the source computes `total_size = await get_repo_size(repo_id)`
with no `allow_patterns` argument, so the sum runs over every file of the
repository, while `allow_patterns` is passed to `download_repo` only. -/
def download_total_size (files : List RepoFile) : Int :=
  get_repo_size files none

/-- Embedding of the `monitor_progress` loop over a finite trace of directory
samples (`samples` holds the successive values of `current_size`, the
recursive on-disk byte sum taken after each sleep; byte counts are embedded in
`Rat` since the progress computation is Python float division).  Each
iteration computes `progress = min(current / total * 100, 100)` — raising
`ZeroDivisionError` when `total = 0` — then invokes the supplied
`on_progress(current_size, total_size)` callback, and breaks out of the loop
exactly when `progress >= 100`.  The result collects the callback invocations
in order, and a flag telling whether the loop terminated within the trace
(`false` means the real loop would keep polling). -/
def monitor_progress_run (total : Rat) : List Rat → Except PyErr (List (Rat × Rat) × Bool)
  | [] => .ok ([], false)
  | c :: rest =>
    if total = 0 then .error .zeroDivisionError
    else if min (c / total * 100) 100 ≥ 100 then .ok ([(c, total)], true)
    else (monitor_progress_run total rest).map (fun p => ((c, total) :: p.1, p.2))

/-- The samples processed by a loop that stops at (and includes) the first
sample satisfying `p`. -/
def takeThrough (p : Rat → Bool) : List Rat → List Rat
  | [] => []
  | c :: rest => if p c then [c] else c :: takeThrough p rest

/-- One progress event as received by `throttled_broadcast` in `main.py`:
the wall-clock time (`time.time()`, embedded in `Rat`) at which the event is
delivered, and its `status` string. -/
structure ProgressEvent where
  time : Rat
  status : String
deriving DecidableEq, Repr, Inhabited

/-- One invocation of `throttled_broadcast`, acting on the module-level
`last_broadcast_time`: the event is forwarded (a broadcast task is created)
iff `event.status == "complete"` or `current_time - last_broadcast_time >= 0.1`;
on forwarding, `last_broadcast_time` is set to the current time.  Returns the
new `last_broadcast_time` and whether the event was forwarded. -/
def throttled_step (last : Rat) (e : ProgressEvent) : Rat × Bool :=
  if e.status = "complete" ∨ e.time - last ≥ 1/10 then (e.time, true) else (last, false)

/-- Folding `throttled_broadcast` over a sequence of delivered events,
starting from a given `last_broadcast_time` (module initialization sets it
to `0`); yields the forwarded/suppressed flag of each event in order. -/
def throttled_run (last : Rat) : List ProgressEvent → List Bool
  | [] => []
  | e :: rest => (throttled_step last e).2 :: throttled_run (throttled_step last e).1 rest

/-- The value of `last_broadcast_time` after a sequence of events. -/
def stateAfter (last : Rat) : List ProgressEvent → Rat
  | [] => last
  | e :: rest => stateAfter (throttled_step last e).1 rest

/-- Specification-side bookkeeping: the delivery time of the most recently
forwarded event among a processed prefix (paired with its forwarded-flags),
or the initial `last_broadcast_time` when none was forwarded yet. -/
def lastForwardedTime (init : Rat) : List ProgressEvent → List Bool → Rat
  | [], _ => init
  | _ :: _, [] => init
  | e :: es, b :: bs => lastForwardedTime (if b then e.time else init) es bs

/-- A tiny concrete engine used to instantiate universally quantified
theorems: the forward pass samples token id `7` when run at position `0`
(acting as a final pipeline stage) and produces a hidden tensor otherwise. -/
def engW : Engine Unit where
  encode := fun _ => [101, 102]
  eosTokenId := 7
  forward := fun _ sp => if sp = 0 then FwdOut.scalar 7 else FwdOut.hidden ()
  forwardT := fun _ sp => if sp = 0 then FwdOut.scalar 9 else FwdOut.hidden ()

/-- A concrete engine acting as an intermediate pipeline stage: the forward
pass always produces a hidden-state tensor. -/
def engW2 : Engine Unit where
  encode := fun _ => [5]
  eosTokenId := 7
  forward := fun _ _ => FwdOut.hidden ()
  forwardT := fun _ _ => FwdOut.hidden ()

/-- A concrete shard (the spec's section-8 demo shard). -/
def shardW : Shard := ⟨"demo", 0, 15, 16⟩

/-- A concrete remote repository tree: one allow-listed file of 10 bytes and
one file outside the allow-list of 50 bytes. -/
def repoFilesW : List RepoFile :=
  [⟨"config.json", some 10⟩, ⟨"README.md", some 50⟩]

/-- A concrete event sequence: an ordinary event at time 1 s followed by a
`complete` event 50 ms later (inside the throttle window). -/
def eventsW : List ProgressEvent :=
  [⟨1, "in_progress"⟩, ⟨21/20, "complete"⟩]

/-! ### Helper lemmas: decimal rendering round-trips through the parser -/

theorem digitC_isDigit (d : Nat) : (digitC d).isDigit = true := by
  unfold digitC
  repeat' split
  all_goals decide

theorem digitC_toNat (d : Nat) (hd : d < 10) : (digitC d).toNat - 48 = d := by
  interval_cases d <;> decide

theorem natReprL_isDigit (n : Nat) : ∀ c ∈ natReprL n, c.isDigit = true := by
  intro c hc
  unfold natReprL at hc
  split at hc
  · simp only [List.mem_singleton] at hc
    subst hc; decide
  · simp only [List.mem_reverse, List.mem_map] at hc
    obtain ⟨d, -, rfl⟩ := hc
    exact digitC_isDigit d

theorem natReprL_ne_nil (n : Nat) : natReprL n ≠ [] := by
  unfold natReprL
  split
  · simp
  · simp only [ne_eq, List.reverse_eq_nil_iff, List.map_eq_nil_iff]
    exact Nat.digits_ne_nil_iff_ne_zero.mpr (by assumption)

theorem foldr_digitC (ds : List Nat) (h : ∀ d ∈ ds, d < 10) :
    ds.foldr (fun d a => a * 10 + ((digitC d).toNat - 48)) 0 = Nat.ofDigits 10 ds := by
  induction ds with
  | nil => simp [Nat.ofDigits]
  | cons d ds ih =>
    have h1 : Nat.ofDigits 10 (d :: ds) = d + 10 * Nat.ofDigits 10 ds := by
      exact_mod_cast @Nat.ofDigits_cons 10 d ds
    rw [List.foldr_cons, ih (fun x hx => h x (List.mem_cons_of_mem d hx)),
      digitC_toNat d (h d (List.mem_cons_self d ds)), h1]
    omega

theorem foldl_natReprL (n : Nat) :
    (natReprL n).foldl (fun a c => a * 10 + (c.toNat - 48)) 0 = n := by
  rcases eq_or_ne n 0 with rfl | h
  · decide
  · rw [natReprL, if_neg h, List.foldl_reverse, List.foldr_map,
      foldr_digitC (Nat.digits 10 n) (fun d hd => Nat.digits_lt_base (by norm_num) hd),
      Nat.ofDigits_digits]

theorem dropWhile_eq_self_of_takeWhile_nil {α : Type} (p : α → Bool) (r : List α)
    (hr : r.takeWhile p = []) : r.dropWhile p = r := by
  cases r with
  | nil => rfl
  | cons c cs =>
    rw [List.takeWhile_cons] at hr
    rw [List.dropWhile_cons]
    split at hr
    · exact absurd hr (by simp)
    · rw [if_neg (by assumption)]

theorem takeWhile_append_all {α : Type} (p : α → Bool) (l r : List α)
    (hl : ∀ c ∈ l, p c = true) (hr : r.takeWhile p = []) :
    (l ++ r).takeWhile p = l ∧ (l ++ r).dropWhile p = r := by
  induction l with
  | nil =>
    exact ⟨hr, dropWhile_eq_self_of_takeWhile_nil p r hr⟩
  | cons c cs ih =>
    have hc : p c = true := hl c (List.mem_cons_self c cs)
    obtain ⟨h1, h2⟩ := ih (fun x hx => hl x (List.mem_cons_of_mem c hx))
    constructor
    · rw [List.cons_append, List.takeWhile_cons, if_pos hc, h1]
    · rw [List.cons_append, List.dropWhile_cons, if_pos hc, h2]

theorem parseNatTok_natReprL (n : Nat) (r : List Char)
    (hr : r.takeWhile Char.isDigit = []) :
    parseNatTok (natReprL n ++ r) = some (n, r) := by
  obtain ⟨ht, hd⟩ :=
    takeWhile_append_all Char.isDigit (natReprL n) r (natReprL_isDigit n) hr
  unfold parseNatTok
  rw [ht, hd, if_neg (natReprL_ne_nil n), foldl_natReprL]

theorem isDigit_ne {c d : Char} (h : c.isDigit = true) (hd : d.isDigit = false) : c ≠ d := by
  rintro rfl
  rw [h] at hd
  cases hd

theorem parseIntTok_intReprL (n : Int) (r : List Char)
    (hr : r.takeWhile Char.isDigit = []) :
    parseIntTok (intReprL n ++ r) = some (n, r) := by
  rcases lt_or_le n 0 with hneg | hpos
  · rw [intReprL, if_pos hneg, List.cons_append]
    rw [parseIntTok, if_pos rfl, parseNatTok_natReprL n.natAbs r hr]
    have hcast : (-(n.natAbs : Int)) = n := by omega
    simp [hcast]
    rw [abs_of_neg hneg, neg_neg]
  · rw [intReprL, if_neg (by omega)]
    obtain ⟨c, cs, hc⟩ := List.exists_cons_of_ne_nil (natReprL_ne_nil n.natAbs)
    have hdig : c.isDigit = true := natReprL_isDigit n.natAbs c (by rw [hc]; exact List.mem_cons_self c cs)
    have hpn := parseNatTok_natReprL n.natAbs r hr
    rw [hc, List.cons_append] at hpn ⊢
    rw [parseIntTok, if_neg (isDigit_ne hdig (by decide)), hpn]
    have hcast : ((n.natAbs : Int)) = n := by omega
    simp [hcast]

theorem parseStrTok_key (key r : List Char) (hkey : ∀ c ∈ key, c ≠ '"') :
    parseStrTok ('"' :: (key ++ ('"' :: r))) = some (String.mk key, r) := by
  obtain ⟨h1, h2⟩ := takeWhile_append_all (fun x => decide (x ≠ '"')) key ('"' :: r)
    (fun c hc => by simpa using hkey c hc) (by simp)
  rw [parseStrTok, if_pos rfl, h2]
  simp only [decide_not] at h1
  simp [h1]

theorem skipWs_cons (c : Char) (cs : List Char) (h : isJsonWs c = false) :
    skipWs (c :: cs) = c :: cs := by
  rw [skipWs, List.dropWhile_cons, if_neg (by simp [h])]

theorem skipWs_space (cs : List Char) : skipWs (' ' :: cs) = skipWs cs := by
  simp only [skipWs]
  rw [List.dropWhile_cons, if_pos (by decide)]

theorem isJsonWs_of_isDigit {c : Char} (h : c.isDigit = true) : isJsonWs c = false := by
  unfold isJsonWs
  rcases eq_or_ne c ' ' with rfl | h1
  · exact absurd h (by decide)
  rcases eq_or_ne c '\n' with rfl | h2
  · exact absurd h (by decide)
  rcases eq_or_ne c '\t' with rfl | h3
  · exact absurd h (by decide)
  rcases eq_or_ne c '\r' with rfl | h4
  · exact absurd h (by decide)
  simp [h1, h2, h3, h4]

theorem intReprL_head (n : Int) :
    ∃ c cs, intReprL n = c :: cs ∧ (c.isDigit = true ∨ c = '-') := by
  unfold intReprL
  split
  · exact ⟨'-', natReprL n.natAbs, rfl, Or.inr rfl⟩
  · obtain ⟨c, cs, hc⟩ := List.exists_cons_of_ne_nil (natReprL_ne_nil n.natAbs)
    exact ⟨c, cs, hc, Or.inl (natReprL_isDigit n.natAbs c (by rw [hc]; exact List.mem_cons_self c cs))⟩

theorem skipWs_intReprL (n : Int) (r : List Char) :
    skipWs (intReprL n ++ r) = intReprL n ++ r := by
  obtain ⟨c, cs, hc, hd⟩ := intReprL_head n
  rw [hc, List.cons_append]
  refine skipWs_cons c (cs ++ r) ?_
  rcases hd with hd | rfl
  · exact isJsonWs_of_isDigit hd
  · decide

theorem parseScalar_int (n : Int) (r : List Char)
    (hr : r.takeWhile Char.isDigit = []) :
    parseScalar (intReprL n ++ r) = some (.jint n, r) := by
  obtain ⟨c, cs, hc, hd⟩ := intReprL_head n
  have hpi := parseIntTok_intReprL n r hr
  rw [hc, List.cons_append] at hpi ⊢
  rcases hd with hdig | rfl
  · rw [parseScalar, if_neg (isDigit_ne hdig (by decide)),
      if_neg (by push_neg; exact ⟨isDigit_ne hdig (by decide), isDigit_ne hdig (by decide),
        isDigit_ne hdig (by decide)⟩), hpi]
  · rw [parseScalar, if_neg (by decide), if_neg (by decide), hpi]

theorem takeWhile_cons_false {α : Type} {p : α → Bool} {c : α} {l : List α}
    (h : p c = false) : (c :: l).takeWhile p = [] := by
  rw [List.takeWhile_cons, if_neg (by simp [h])]

theorem parseMembers_one (f : Nat) (b : Int) :
    parseMembers (f + 1)
      (' ' :: '"' :: ("n_captured_toks".data ++ ('"' :: ':' :: ' ' :: (intReprL b ++ ['}'])))) =
      some ([("n_captured_toks", .jint b)], []) := by
  rw [parseMembers, skipWs_space, skipWs_cons '"' _ (by decide),
    parseStrTok_key "n_captured_toks".data (':' :: ' ' :: (intReprL b ++ ['}'])) (by decide)]
  dsimp only
  rw [skipWs_cons ':' _ (by decide)]
  dsimp only
  rw [if_pos rfl, skipWs_space, skipWs_intReprL,
    parseScalar_int b ['}'] (by decide)]
  dsimp only
  rw [skipWs_cons '}' _ (by decide)]
  dsimp only
  rw [if_neg (by decide), if_pos rfl]

theorem parseMembers_two (f : Nat) (a b : Int) :
    parseMembers (f + 2)
      ('"' :: ("start_pos".data ++ ('"' :: ':' :: ' ' ::
        (intReprL a ++ (',' :: ' ' :: '"' :: ("n_captured_toks".data ++ ('"' :: ':' :: ' ' ::
          (intReprL b ++ ['}'])))))))) =
      some ([("start_pos", .jint a), ("n_captured_toks", .jint b)], []) := by
  rw [parseMembers, skipWs_cons '"' _ (by decide),
    parseStrTok_key "start_pos".data _ (by decide)]
  dsimp only
  rw [skipWs_cons ':' _ (by decide)]
  dsimp only
  rw [if_pos rfl, skipWs_space, skipWs_intReprL,
    parseScalar_int a (',' :: ' ' :: '"' :: ("n_captured_toks".data ++ ('"' :: ':' :: ' ' ::
      (intReprL b ++ ['}'])))) (takeWhile_cons_false (by decide))]
  dsimp only
  rw [skipWs_cons ',' _ (by decide)]
  dsimp only
  rw [if_pos rfl, parseMembers_one f b]

theorem parseVal_encodeStateL (f : Nat) (a b : Int) :
    parseVal (f + 2) (encodeStateL a b) =
      some (.jobj [("start_pos", .jint a), ("n_captured_toks", .jint b)], []) := by
  unfold parseVal encodeStateL
  rw [skipWs_cons '{' _ (by decide)]
  dsimp only
  rw [if_pos rfl, skipWs_cons '"' _ (by decide)]
  dsimp only
  rw [if_neg (by decide), parseMembers_two f a b]

theorem jsonLoads_encodeState (a b : Int) :
    jsonLoads (encodeState a b) =
      .ok (.jobj [("start_pos", .jint a), ("n_captured_toks", .jint b)]) := by
  have hlen : (encodeState a b).length + 1 = ((encodeState a b).length - 1) + 2 := by
    have h2 : 2 ≤ (encodeState a b).length := by
      show 2 ≤ (encodeStateL a b).length
      simp [encodeStateL]
    omega
  unfold jsonLoads
  rw [hlen]
  have hdata : (encodeState a b).data = encodeStateL a b := rfl
  rw [hdata, parseVal_encodeStateL]
  dsimp only
  rw [if_pos (show skipWs [] = [] from rfl)]

theorem encodeState_ne_empty (a b : Int) : encodeState a b ≠ "" := by
  intro h
  have := congrArg String.data h
  rw [show (encodeState a b).data = encodeStateL a b from rfl] at this
  simp [encodeStateL] at this

theorem decodeIntField_encodeState_sp (a b : Int) :
    decodeIntField (some (encodeState a b)) "start_pos" = .ok a := by
  unfold decodeIntField
  rw [show orBrace (some (encodeState a b)) = encodeState a b from
    by rw [orBrace, if_neg (encodeState_ne_empty a b)]]
  rw [jsonLoads_encodeState]
  simp [Bind.bind, Except.bind, dictGet, List.find?]

theorem decodeIntField_encodeState_nct (a b : Int) :
    decodeIntField (some (encodeState a b)) "n_captured_toks" = .ok b := by
  unfold decodeIntField
  rw [show orBrace (some (encodeState a b)) = encodeState a b from
    by rw [orBrace, if_neg (encodeState_ne_empty a b)]]
  rw [jsonLoads_encodeState]
  simp [Bind.bind, Except.bind, dictGet, List.find?]

theorem decodeState_encodeState (a b : Int) :
    decodeState (some (encodeState a b)) = .ok (a, b) := by
  unfold decodeState
  rw [decodeIntField_encodeState_sp, decodeIntField_encodeState_nct]
  rfl

/-! ### Claim theorems -/

/-- C1: whenever the forward pass of `infer_prompt` yields a single scalar
output (final pipeline stage), the returned continuation state carries
`start_pos` equal to the decoded `start_pos` plus the number of tokens the
prompt tokenizes to, `n_captured_toks = 1`, and `is_terminal` true iff the
sampled next-token id equals the tokenizer's end-of-sequence id; the second
conjunct decodes the returned blob back to that state. -/
theorem infer_prompt_final_stage {τ : Type} (eng : Engine τ) (prompt : String)
    (st : Option String) (sp nct t : Int)
    (h1 : decodeIntField st "start_pos" = .ok sp)
    (h2 : decodeIntField st "n_captured_toks" = .ok nct)
    (hf : eng.forward (eng.encode prompt) sp = .scalar t) :
    inferPrompt eng prompt st =
      .ok (.scalarArr t, encodeState (sp + ((eng.encode prompt).length : Int)) 1,
        decide (t = eng.eosTokenId)) ∧
    decodeState (some (encodeState (sp + ((eng.encode prompt).length : Int)) 1)) =
      .ok (sp + ((eng.encode prompt).length : Int), 1) := by
  refine ⟨?_, decodeState_encodeState _ _⟩
  unfold inferPrompt
  rw [h1, h2]
  simp only [Bind.bind, Except.bind]
  rw [hf]

theorem infer_prompt_final_stage_witness :
    inferPrompt engW "hi" none =
      .ok (.scalarArr 7, encodeState (0 + ((engW.encode "hi").length : Int)) 1,
        decide ((7 : Int) = engW.eosTokenId)) ∧
    decodeState (some (encodeState (0 + ((engW.encode "hi").length : Int)) 1)) =
      .ok (0 + ((engW.encode "hi").length : Int), 1) :=
  infer_prompt_final_stage engW "hi" none 0 0 7 rfl rfl rfl

/-- C2: whenever the forward pass of `infer_tensor` yields a single scalar
output, the returned continuation state's `start_pos` equals the decoded
`start_pos` plus the decoded `n_captured_toks` (not the input tensor's
length), and `n_captured_toks` is reset to `1`. -/
theorem infer_tensor_final_stage {τ : Type} (eng : Engine τ) (input : τ)
    (st : Option String) (sp nct t : Int)
    (h1 : decodeIntField st "start_pos" = .ok sp)
    (h2 : decodeIntField st "n_captured_toks" = .ok nct)
    (hf : eng.forwardT input sp = .scalar t) :
    inferTensor eng input st =
      .ok (.scalarArr t, encodeState (sp + nct) 1, decide (t = eng.eosTokenId)) ∧
    decodeState (some (encodeState (sp + nct) 1)) = .ok (sp + nct, 1) := by
  refine ⟨?_, decodeState_encodeState _ _⟩
  unfold inferTensor
  rw [h1, h2]
  simp only [Bind.bind, Except.bind]
  rw [hf]

theorem infer_tensor_final_stage_witness :
    inferTensor engW () none =
      .ok (.scalarArr 9, encodeState (0 + 0) 1, decide ((9 : Int) = engW.eosTokenId)) ∧
    decodeState (some (encodeState (0 + 0) 1)) = .ok (0 + 0, 1) :=
  infer_tensor_final_stage engW () none 0 0 9 rfl rfl rfl

/-- C3: whenever the forward pass of `infer_prompt` yields a non-scalar
(intermediate hidden-state) output, the returned encoding keeps `start_pos`
unadvanced, stores `n_captured_toks + input_token_count + 1` in its
`n_captured_toks` field (the lookahead counter), and `is_terminal` is false. -/
theorem infer_prompt_intermediate_stage {τ : Type} (eng : Engine τ) (prompt : String)
    (st : Option String) (sp nct : Int) (hd : τ)
    (h1 : decodeIntField st "start_pos" = .ok sp)
    (h2 : decodeIntField st "n_captured_toks" = .ok nct)
    (hf : eng.forward (eng.encode prompt) sp = .hidden hd) :
    inferPrompt eng prompt st =
      .ok (.tensor hd,
        encodeState sp (nct + ((eng.encode prompt).length : Int) + 1), false) ∧
    decodeState (some (encodeState sp (nct + ((eng.encode prompt).length : Int) + 1))) =
      .ok (sp, nct + ((eng.encode prompt).length : Int) + 1) := by
  refine ⟨?_, decodeState_encodeState _ _⟩
  unfold inferPrompt
  rw [h1, h2]
  simp only [Bind.bind, Except.bind]
  rw [hf]

theorem infer_prompt_intermediate_stage_witness :
    inferPrompt engW2 "hi" none =
      .ok (.tensor (),
        encodeState 0 (0 + ((engW2.encode "hi").length : Int) + 1), false) ∧
    decodeState (some (encodeState 0 (0 + ((engW2.encode "hi").length : Int) + 1))) =
      .ok (0, 0 + ((engW2.encode "hi").length : Int) + 1) :=
  infer_prompt_intermediate_stage engW2 "hi" none 0 0 () rfl rfl rfl

/-- C4: an absent (`None`) or empty-string continuation blob decodes to the
fresh-start state `(start_pos, n_captured_toks) = (0, 0)` — this is the decode
performed at the top of both `infer_prompt` and `infer_tensor`. -/
theorem decode_fresh_start :
    decodeState none = .ok (0, 0) ∧ decodeState (some "") = .ok (0, 0) :=
  ⟨rfl, rfl⟩

/-- C5 counterexample: a malformed non-empty continuation blob is not treated
as the fresh-start state — `json.loads` raises and the inference call aborts
with the decode error instead of proceeding. -/
theorem invalid_state_not_fresh_cex :
    decodeState (some "notjson") = .error .jsonDecodeError ∧
    inferPrompt engW "hi" (some "notjson") = .error .jsonDecodeError ∧
    inferTensor engW () (some "notjson") = .error .jsonDecodeError :=
  ⟨rfl, rfl, rfl⟩

/-- C5 amended: a malformed non-empty continuation blob aborts the call — a
blob that is not valid JSON propagates the `json.loads` decode error, and a
valid-JSON blob that is not an object aborts with an attribute error from
`.get`; only absent/empty blobs fall back to the fresh-start state. -/
theorem invalid_state_aborts {τ : Type} (eng : Engine τ) (prompt : String)
    (input : τ) (s : String) (hne : s ≠ "") :
    (∀ e, jsonLoads s = .error e →
      inferPrompt eng prompt (some s) = .error e ∧
      inferTensor eng input (some s) = .error e) ∧
    (∀ v, jsonLoads s = .ok v → (∀ fs, v ≠ JVal.jobj fs) →
      inferPrompt eng prompt (some s) = .error .attributeError ∧
      inferTensor eng input (some s) = .error .attributeError) := by
  have horb : orBrace (some s) = s := by rw [orBrace, if_neg hne]
  constructor
  · intro e he
    have hdec : ∀ key, decodeIntField (some s) key = .error e := by
      intro key
      unfold decodeIntField
      rw [horb, he]
      rfl
    constructor
    · unfold inferPrompt; rw [hdec]; rfl
    · unfold inferTensor; rw [hdec]; rfl
  · intro v hv hnobj
    have hdec : ∀ key, decodeIntField (some s) key = .error .attributeError := by
      intro key
      unfold decodeIntField
      rw [horb, hv]
      cases v with
      | jobj fs => exact absurd rfl (hnobj fs)
      | jnull => rfl
      | jbool b => rfl
      | jint n => rfl
      | jstr s2 => rfl
    constructor
    · unfold inferPrompt; rw [hdec]; rfl
    · unfold inferTensor; rw [hdec]; rfl

theorem invalid_state_aborts_witness :
    inferPrompt engW "hi" (some "bad state") = .error .jsonDecodeError ∧
    inferTensor engW () (some "bad state") = .error .jsonDecodeError :=
  (invalid_state_aborts engW "hi" () "bad state" (by decide)).1 .jsonDecodeError rfl

/-- C6: when the cached shard equals the requested shard, `ensure_shard`
returns immediately — zero downloader invocations, and the slot (shard,
model handle, tokenizer handle) is returned unchanged. -/
theorem ensure_shard_cache_hit {μ θ : Type} (download : Shard → String)
    (build : String → Shard → μ) (loadTok : String → θ)
    (st : EngineSlot μ θ) (shard : Shard) (h : st.shard = some shard) :
    ensure_shard download build loadTok st shard = (st, 0) := by
  unfold ensure_shard
  rw [if_pos h]

theorem ensure_shard_cache_hit_witness :
    ensure_shard (fun _ => "local-path") (fun _ _ => (0 : Nat)) (fun _ => (0 : Nat))
      ⟨some shardW, some 0, some 0⟩ shardW = (⟨some shardW, some 0, some 0⟩, 0) :=
  ensure_shard_cache_hit _ _ _ ⟨some shardW, some 0, some 0⟩ shardW rfl

/-- C7 (divergence, evaluated at the failing input): the expected total
passed to the Transfer Monitor is the unfiltered repository size (60 bytes
for `repoFilesW`), not the allow-list-filtered size (10 bytes); with the
unfiltered total the monitor never reaches 100% once the transfer has
fetched only the allow-listed files, so its loop does not terminate. -/
theorem repo_size_allow_list_ignored :
    download_total_size repoFilesW = 60 ∧
    get_repo_size repoFilesW (some model_allow_patterns) = 10 ∧
    monitor_progress_run 60 [10, 10] = .ok ([(10, 60), (10, 60)], false) := by
  refine ⟨by decide, by decide, ?_⟩
  norm_num [monitor_progress_run, Except.map]

theorem min_progress_ge_iff (total c : Rat) (h : 0 < total) :
    (min (c / total * 100) 100 ≥ 100) ↔ total ≤ c := by
  rw [ge_iff_le, le_min_iff]
  constructor
  · rintro ⟨h1, -⟩
    rw [div_mul_eq_mul_div, le_div_iff₀ h] at h1
    nlinarith
  · intro hc
    refine ⟨?_, le_refl _⟩
    rw [div_mul_eq_mul_div, le_div_iff₀ h]
    nlinarith

theorem monitor_run_eq (total : Rat) (h : 0 < total) (samples : List Rat) :
    monitor_progress_run total samples =
      .ok ((takeThrough (fun c => decide (total ≤ c)) samples).map (fun c => (c, total)),
        samples.any (fun c => decide (total ≤ c))) := by
  induction samples with
  | nil => rfl
  | cons c rest ih =>
    rw [monitor_progress_run, if_neg (ne_of_gt h)]
    by_cases hc : total ≤ c
    · rw [if_pos ((min_progress_ge_iff total c h).mpr hc)]
      simp [takeThrough, hc]
    · rw [if_neg (fun hh => hc ((min_progress_ge_iff total c h).mp hh)), ih]
      simp [takeThrough, hc, Except.map]

/-- C8: with a positive expected total, the monitor invokes the supplied
callback with `(current_bytes, total_bytes)` on every sample it processes,
and the loop terminates exactly at the first sample whose byte total reaches
the expected total (`min(current/total*100, 100) >= 100` iff
`current >= total`); if no sample reaches the total, every sample of the
trace is processed and the loop has not terminated. -/
theorem monitor_progress_spec (total : Rat) (h : 0 < total) (samples : List Rat) :
    monitor_progress_run total samples =
      .ok ((takeThrough (fun c => decide (total ≤ c)) samples).map (fun c => (c, total)),
        samples.any (fun c => decide (total ≤ c))) :=
  monitor_run_eq total h samples

theorem monitor_progress_spec_witness :
    monitor_progress_run 4 [1, 4, 9] = .ok ([(1, 4), (4, 4)], true) := by
  have h := monitor_progress_spec 4 (by norm_num) [1, 4, 9]
  rw [h]
  norm_num [takeThrough]

/-- C10: with expected total `0`, the first sample's progress computation
divides by zero and the monitor raises `ZeroDivisionError` instead of
completing; with a positive expected total the run never raises. -/
theorem monitor_zero_total_raises (total : Rat) (samples : List Rat) :
    (total = 0 → samples ≠ [] → monitor_progress_run total samples = .error .zeroDivisionError) ∧
    (0 < total → ∃ r, monitor_progress_run total samples = .ok r) := by
  constructor
  · rintro rfl hne
    cases samples with
    | nil => exact absurd rfl hne
    | cons c rest => rw [monitor_progress_run, if_pos rfl]
  · intro h
    exact ⟨_, monitor_run_eq total h samples⟩

theorem monitor_zero_total_raises_witness :
    monitor_progress_run 0 [5] = .error .zeroDivisionError ∧
    ∃ r, monitor_progress_run 1 [5] = .ok r :=
  ⟨(monitor_zero_total_raises 0 [5]).1 rfl (by simp),
   (monitor_zero_total_raises 1 [5]).2 (by norm_num)⟩

theorem throttled_step_fst (last : Rat) (e : ProgressEvent) :
    (if (throttled_step last e).2 = true then e.time else last) = (throttled_step last e).1 := by
  unfold throttled_step
  by_cases h : e.status = "complete" ∨ e.time - last ≥ 1/10
  · rw [if_pos h]; simp
  · rw [if_neg h]; simp

theorem throttled_aux (events : List ProgressEvent) :
    ∀ (init : Rat) (i : Nat), i < events.length →
      (((throttled_run init events).getD i false = true) ↔
        ((events.getD i default).status = "complete" ∨
          (events.getD i default).time -
            lastForwardedTime init (events.take i) ((throttled_run init events).take i) ≥ 1/10)) := by
  induction events with
  | nil => intro init i hi; simp at hi
  | cons e rest ih =>
    intro init i hi
    cases i with
    | zero =>
      simp only [throttled_run, List.getD_cons_zero, List.take_zero, lastForwardedTime]
      unfold throttled_step
      by_cases h : e.status = "complete" ∨ e.time - init ≥ 1/10
      · rw [if_pos h]; simpa using h
      · rw [if_neg h]; simpa using h
    | succ i =>
      have hi' : i < rest.length := by simpa using hi
      simp only [throttled_run, List.getD_cons_succ, List.take_succ_cons, lastForwardedTime]
      rw [throttled_step_fst]
      exact ih (throttled_step init e).1 i hi'

/-- C9: an event delivered to `throttled_broadcast` is forwarded downstream
iff its status is `"complete"` or at least 100 ms have elapsed between its
delivery time and the time of the last forwarded event (the module-level
initial value `0` standing in before any event has been forwarded); in
particular every `"complete"` event is forwarded regardless of throttling. -/
theorem throttled_broadcast_spec (events : List ProgressEvent) (i : Nat)
    (hi : i < events.length) :
    ((throttled_run 0 events).getD i false = true) ↔
      ((events.getD i default).status = "complete" ∨
        (events.getD i default).time -
          lastForwardedTime 0 (events.take i) ((throttled_run 0 events).take i) ≥ 1/10) :=
  throttled_aux events 0 i hi

theorem throttled_broadcast_spec_witness :
    ((throttled_run 0 eventsW).getD 1 false = true) ↔
      ((eventsW.getD 1 default).status = "complete" ∨
        (eventsW.getD 1 default).time -
          lastForwardedTime 0 (eventsW.take 1) ((throttled_run 0 eventsW).take 1) ≥ 1/10) :=
  throttled_broadcast_spec eventsW 1 (by decide)
